import Mathlib

/-!
Verification of the symbol-typing-trainer core against its natural-language
specification.

The development shallowly embeds the program's core logic:
  * `src/domain/random.ts`   (`pickRandom`, `clampInt`, `randomInt`)
  * `src/domain/digits.ts`   (`buildDigitsString`, `generateDigitsTarget`)
  * `src/domain/keyboard.ts` (`normalizeKey`)
  * `src/domain/symbols.ts`  (`SINGLE_SYMBOLS`, `COMBOS`, `initEnabledMap`)
  * the `useTrainer` hook (state, `resetQuestion`, `nextQuestion`, `bumpStat`,
    `ranked`, the actions, and the `onKeyDown` handler)

Modelling conventions:
  * A JavaScript string is a `List Char` (`JStr`); string literals are
    injected with `str`.
  * A JavaScript number is a `JSNum` (`nan`, the two infinities, or a finite
    rational); `Math.trunc` becomes `ratTrunc`.  Wall-clock instants and
    millisecond durations are plain rationals.
  * Each `Math.random()` draw is replaced by an oracle value describing the
    draw's observable outcome: a bounded draw `a + Math.floor(r * n)` with
    `r ∈ [0,1)` is modelled as `a + e % n` for an arbitrary natural entropy
    `e` (both parametrisations realise exactly the values `a..a+n-1`), and a
    threshold test `Math.random() < (flag ? 0.3 : 0)` is modelled as
    `flag && b` for an arbitrary oracle boolean `b` (when `flag` is false the
    comparison against 0 is always false).  Theorems quantify over all
    oracles, hence over all realisable random outcomes.
  * React functional state updates inside one event handler are applied
    sequentially to an explicit state record, which matches the batched
    semantics of the hook (each `set…(prev => …)` reads the previous queued
    value, and plain reads like `progress`/`target` read the render closure,
    i.e. the state at event entry).
-/

/-- JavaScript strings are modelled as lists of characters. -/
abbrev JStr := List Char

/-- Inject a Lean string literal as a `JStr`. -/
def str (s : String) : JStr := s.data

/-- `t.startsWith p` on JavaScript strings (`String.prototype.startsWith`). -/
def jsStartsWith : JStr → JStr → Bool
  | _, [] => true
  | [], _ :: _ => false
  | c :: t, d :: p => c == d && jsStartsWith t p

/-- `s.slice(0, -1)`: drop the final character, no-op on the empty string. -/
def jsDropLast (s : JStr) : JStr := s.dropLast

/-- `t[i] ?? ''`: the one-character string at index `i`, or empty when out of
range. -/
def jsCharAt (t : JStr) (i : Nat) : JStr :=
  match t[i]? with
  | some c => [c]
  | none => []

/-- A JavaScript number: `NaN`, an infinity, or a finite rational value. -/
inductive JSNum where
  | nan : JSNum
  | posInf : JSNum
  | negInf : JSNum
  | fin : ℚ → JSNum
deriving DecidableEq

/-- `Number.isFinite`. -/
def JSNum.isFiniteNum : JSNum → Bool
  | .fin _ => true
  | _ => false

/-- `Math.trunc` on a finite value: round toward zero. -/
def ratTrunc (q : ℚ) : ℤ := if 0 ≤ q then ⌊q⌋ else ⌈q⌉

/-- `clampInt` from `src/domain/random.ts`:
`if (!Number.isFinite(n)) return min; return Math.min(max, Math.max(min, Math.trunc(n)))`. -/
def clampInt (n : JSNum) (mn mx : ℤ) : ℤ :=
  match n with
  | .fin q => min mx (max mn (ratTrunc q))
  | _ => mn

/-- `randomInt` from `src/domain/random.ts`:
`a + Math.floor(Math.random() * (b - a + 1))` with `a = min`, `b = max` of the
two arguments.  The draw `Math.floor(r * n)`, `r ∈ [0,1)`, is modelled by
`e % n` for an arbitrary entropy `e : ℕ`. -/
def randomIntE (e : ℕ) (mn mx : ℤ) : ℤ :=
  let a := min mn mx
  let b := max mn mx
  a + (e : ℤ) % (b - a + 1)

/-- `pickRandom` from `src/domain/random.ts`:
`list[Math.floor(Math.random() * list.length)]`, the index draw modelled by
`e % list.length`. -/
def pickRandom (list : List JStr) (e : ℕ) : JStr :=
  list.getD (e % list.length) []

/-- Numeric-generation settings (`DigitsSettings` in `src/domain/digits.ts`). -/
structure DigitsSettings where
  minIntDigits : JSNum
  maxIntDigits : JSNum
  enableSign : Bool
  enableDecimal : Bool
  minFracDigits : JSNum
  maxFracDigits : JSNum
deriving DecidableEq

/-- Oracle for the random draws consumed by one call of
`generateDigitsTarget`: entropy for the integer-length draw, the outcomes of
the decimal/sign threshold tests, the `'+'` versus `'-'` choice, entropy for
the fractional-length draw, and entropy streams for the digits of the integer
and fractional digit strings. -/
structure DigitsRand where
  intLenE : ℕ
  decB : Bool
  signB : Bool
  plusB : Bool
  fracLenE : ℕ
  intDigitE : ℕ → ℕ
  fracDigitE : ℕ → ℕ

/-- `buildDigitsString` from `src/domain/digits.ts`: `n = max(1, trunc(len))`
characters, the `i`-th drawn from `[1,9]` when `i = 0` and `firstNonZero` is
set, otherwise from `[0,9]` (the argument `len` is always integral at call
sites, so `Math.trunc` is the identity on it). -/
def buildDigitsString (ent : ℕ → ℕ) (len : ℤ) (firstNonZero : Bool) : JStr :=
  let n := (max 1 len).toNat
  (List.range n).map fun i =>
    Nat.digitChar (randomIntE (ent i) (if i == 0 && firstNonZero then 1 else 0) 9).toNat

/-- `generateDigitsTarget` from `src/domain/digits.ts`. -/
def generateDigitsTarget (r : DigitsRand) (settings : DigitsSettings) : JStr :=
  let minIntDigits := clampInt settings.minIntDigits 1 50
  let maxIntDigits := clampInt settings.maxIntDigits 1 50
  let minFracDigits := clampInt settings.minFracDigits 1 50
  let maxFracDigits := clampInt settings.maxFracDigits 1 50
  let intLen := randomIntE r.intLenE minIntDigits maxIntDigits
  let withDecimal := settings.enableDecimal && r.decB
  let withSign := settings.enableSign && r.signB
  let sign : JStr := if withSign then (if r.plusB then str "+" else str "-") else []
  if !withDecimal then
    sign ++ buildDigitsString r.intDigitE intLen true
  else
    let intPart := buildDigitsString r.intDigitE intLen false
    let fracLen := randomIntE r.fracLenE minFracDigits maxFracDigits
    let fracPart := buildDigitsString r.fracDigitE fracLen false
    sign ++ intPart ++ str "." ++ fracPart

/-- `normalizeKey` from `src/domain/keyboard.ts`. -/
def normalizeKey (k : JStr) : JStr :=
  if k = str "Enter" ∨ k = str "Tab" ∨ k = str "Escape" then k
  else if k = str "Dead" then []
  else k

/-- The fixed single-character symbol catalog (`SINGLE_SYMBOLS` in
`src/domain/symbols.ts`); quote, brace and backtick characters are written by
code point. -/
def SINGLE_SYMBOLS : List JStr :=
  [['('], [')'], ['['], [']'], [Char.ofNat 123], [Char.ofNat 125], ['<'], ['>'],
   [','], ['.'], [':'], [';'], ['!'], ['?'],
   [Char.ofNat 39], ['\"'],
   ['+'], ['-'], ['*'], ['/'], ['='],
   ['_'], ['@'], ['#'], ['$'], ['%'], ['^'], ['&'], ['|'], ['\\'], ['~'], [Char.ofNat 96]]

/-- The fixed multi-character combo catalog (`COMBOS` in
`src/domain/symbols.ts`). -/
def COMBOS : List JStr :=
  [str "=>", str "->", str "<-", str "!=", str "==", str "===", str "<=", str ">=",
   str "&&", str "||", str "??", str "?:",
   str "::", str "->>", str "?.", str "??=",
   str "..", str "...",
   str "//", str "/*", str "*/",
   str "</", str "/>"]

/-- A `Record<string, boolean>`: a partial map from strings to booleans. -/
abbrev EnabledMap := JStr → Option Bool

/-- `initEnabledMap`: every catalog item mapped to `true`. -/
def initEnabledMap (list : List JStr) : EnabledMap :=
  fun item => if item ∈ list then some true else none

/-- `Object.fromEntries(basePool.map(item => [item, false]))`. -/
def allFalseMap (list : List JStr) : EnabledMap :=
  fun item => if item ∈ list then some false else none

/-- `{ ...m, [item]: v }`. -/
def setKey (m : EnabledMap) (item : JStr) (v : Bool) : EnabledMap :=
  fun j => if j = item then some v else m j

/-- The three trainer modes. -/
inductive Mode where
  | single : Mode
  | combo : Mode
  | digits : Mode
deriving DecidableEq

/-- A per-item statistic (`Stat` in the hook). -/
structure Stat where
  attempts : ℕ
  correct : ℕ
  totalMs : ℚ
deriving DecidableEq

/-- The state owned by the `useTrainer` hook (the ref `shownAtRef` included;
`accuracy` and `ranked` are derived, not stored). -/
structure TrainerState where
  mode : Mode
  isRunning : Bool
  enabledSingle : EnabledMap
  enabledCombo : EnabledMap
  digitsSettings : DigitsSettings
  target : JStr
  typed : JStr
  progress : JStr
  totalAttempts : ℕ
  totalCorrect : ℕ
  totalMiss : ℕ
  totalBackspace : ℕ
  lastTimeMs : Option ℚ
  statsByItem : List (JStr × Stat)
  shownAt : ℚ

/-- `basePool`: empty for digits mode, otherwise the catalog of the mode. -/
def basePool (m : Mode) : List JStr :=
  match m with
  | .digits => []
  | .single => SINGLE_SYMBOLS
  | .combo => COMBOS

/-- `list.filter(item => enabled[item] !== false)`. -/
def filterPool (list : List JStr) (enabled : EnabledMap) : List JStr :=
  list.filter fun item => !(enabled item == some false)

/-- The effective `pool` of a state: the enabled subset of the mode's base
catalog. -/
def computePool (s : TrainerState) : List JStr :=
  match s.mode with
  | .digits => []
  | .single => filterPool SINGLE_SYMBOLS s.enabledSingle
  | .combo => filterPool COMBOS s.enabledCombo

/-- Randomness and wall clock consumed by one state transition: entropy for
`pickRandom`, a `DigitsRand` for `generateDigitsTarget`, and the value of
`nowMs()`. -/
structure Oracle where
  pickE : ℕ
  digits : DigitsRand
  now : ℚ

/-- `resetQuestion(nextMode, overrides)` from the hook: draw a fresh target
for `nextMode` (using override maps/settings when provided), clear both
buffers, refresh the shown-at timestamp. -/
def resetQuestion (o : Oracle) (nextMode : Mode) (ovES ovEC : Option EnabledMap)
    (ovDS : Option DigitsSettings) (s : TrainerState) : TrainerState :=
  let effDS := ovDS.getD s.digitsSettings
  let effES := ovES.getD s.enabledSingle
  let effEC := ovEC.getD s.enabledCombo
  if nextMode = .digits then
    { s with target := generateDigitsTarget o.digits effDS,
             typed := [], progress := [], shownAt := o.now }
  else
    let list := if nextMode = .single then SINGLE_SYMBOLS else COMBOS
    let enabled := if nextMode = .single then effES else effEC
    let nextPool := filterPool list enabled
    { s with target := if nextPool.length = 0 then [] else pickRandom nextPool o.pickE,
             typed := [], progress := [], shownAt := o.now }

/-- `nextQuestion` from the hook: in digits mode delegate to `resetQuestion`;
otherwise draw from the current pool, doing nothing when the pool is empty. -/
def nextQuestion (o : Oracle) (s : TrainerState) : TrainerState :=
  if s.mode = .digits then resetQuestion o .digits none none none s
  else
    let pool := computePool s
    if pool.length = 0 then s
    else { s with target := pickRandom pool o.pickE,
                  typed := [], progress := [], shownAt := o.now }

/-- First-match lookup in the per-item statistics map (`prev[item]`). -/
def findStat : List (JStr × Stat) → JStr → Option Stat
  | [], _ => none
  | p :: rest, item => if p.1 = item then some p.2 else findStat rest item

/-- `{ ...prev, [item]: v }`: overwrite in place when the key exists,
otherwise append. -/
def setStat : List (JStr × Stat) → JStr → Stat → List (JStr × Stat)
  | [], item, v => [(item, v)]
  | p :: rest, item, v => if p.1 = item then (item, v) :: rest else p :: setStat rest item v

/-- `bumpStat(item, isCorrect, elapsedMs)` from the hook. -/
def bumpStat (l : List (JStr × Stat)) (item : JStr) (isCorrect : Bool)
    (elapsedMs : Option ℚ) : List (JStr × Stat) :=
  let current := (findStat l item).getD { attempts := 0, correct := 0, totalMs := 0 }
  let next : Stat :=
    { attempts := current.attempts + 1,
      correct := current.correct + (if isCorrect then 1 else 0),
      totalMs := current.totalMs +
        (match isCorrect, elapsedMs with
         | true, some e => e
         | _, _ => 0) }
  setStat l item next

/-- A derived ranked row (`RankedStat` in the hook). -/
structure RankedStat where
  item : JStr
  attempts : ℕ
  correct : ℕ
  totalMs : ℚ
  acc : ℚ
  avg : Option ℚ
deriving DecidableEq

/-- The derivation inside `ranked`'s `map`: accuracy percentage (0 on zero
attempts) and average duration (`null` on zero correct). -/
def deriveStat (p : JStr × Stat) : RankedStat :=
  { item := p.1, attempts := p.2.attempts, correct := p.2.correct, totalMs := p.2.totalMs,
    acc := if p.2.attempts = 0 then 0 else (p.2.correct : ℚ) / (p.2.attempts : ℚ) * 100,
    avg := if p.2.correct = 0 then none else some (p.2.totalMs / (p.2.correct : ℚ)) }

/-- The comparator of `ranked` as a total boolean preorder: lower accuracy
first, ties broken by more attempts first. -/
def rankLe (a b : RankedStat) : Bool :=
  decide (a.acc < b.acc) || (decide (a.acc = b.acc) && decide (b.attempts ≤ a.attempts))

/-- `ranked` from the hook: derive, sort by the comparator, keep the first
10 (JavaScript's sort produces some comparator-sorted permutation; it is
modelled by stable merge sort). -/
def rankedOf (stats : List (JStr × Stat)) : List RankedStat :=
  ((stats.map deriveStat).mergeSort rankLe).take 10

/-- `accuracy` from the hook. -/
def accuracyOf (s : TrainerState) : ℚ :=
  if s.totalAttempts = 0 then 0 else (s.totalCorrect : ℚ) / (s.totalAttempts : ℚ) * 100

/-- The digits-mode branch of `onKeyDown` after the Backspace check: expected
character comparison, match/completion, or counted miss with untouched
buffers. -/
def onKeyDigits (o : Oracle) (key : JStr) (s : TrainerState) : TrainerState :=
  let expected := jsCharAt s.target s.progress.length
  if key = expected then
    let nextProgress := s.progress ++ key
    let s1 := { s with typed := nextProgress, progress := nextProgress }
    if nextProgress = s.target then
      let elapsed := o.now - s.shownAt
      nextQuestion o
        { s1 with lastTimeMs := some elapsed,
                  totalAttempts := s1.totalAttempts + 1,
                  totalCorrect := s1.totalCorrect + 1,
                  statsByItem := bumpStat s1.statsByItem s.target true (some elapsed) }
    else s1
  else
    { s with totalAttempts := s.totalAttempts + 1,
             totalMiss := s.totalMiss + 1,
             statsByItem := bumpStat s.statsByItem s.target false none }

/-- The single/combo branch of `onKeyDown`: append to the typed buffer, then
extend the matched prefix, complete, or count a miss and clear the matched
prefix. -/
def onKeySymbols (o : Oracle) (key : JStr) (s : TrainerState) : TrainerState :=
  let s0 := { s with typed := s.typed ++ key }
  let nextProgress := s.progress ++ key
  if jsStartsWith s.target nextProgress then
    let s1 := { s0 with progress := nextProgress }
    if nextProgress = s.target then
      let elapsed := o.now - s.shownAt
      nextQuestion o
        { s1 with lastTimeMs := some elapsed,
                  totalAttempts := s1.totalAttempts + 1,
                  totalCorrect := s1.totalCorrect + 1,
                  statsByItem := bumpStat s1.statsByItem s.target true (some elapsed) }
    else s1
  else
    { s0 with totalAttempts := s0.totalAttempts + 1,
              totalMiss := s0.totalMiss + 1,
              statsByItem := bumpStat s0.statsByItem s.target false none,
              progress := [] }

/-- The `onKeyDown` handler of the hook, for a keydown event carrying key
identifier `k` and the three modifier flags. -/
def onKeyDown (o : Oracle) (k : JStr) (meta ctrl alt : Bool) (s : TrainerState) : TrainerState :=
  if !s.isRunning then s
  else if s.target = [] then s
  else if meta || ctrl || alt then s
  else if s.mode = .digits then
    if k = str "Backspace" then
      { s with totalBackspace := s.totalBackspace + 1,
               typed := jsDropLast s.typed,
               progress := jsDropLast s.progress }
    else
      let key := normalizeKey k
      if key = [] then s
      else if key.length ≠ 1 then s
      else onKeyDigits o key s
  else
    let key := normalizeKey k
    if key = [] then s
    else if key.length ≠ 1 then s
    else onKeySymbols o key s

/-- The mutual min/max adjustment performed by `setDigitsSettingsAndReset`
before storing: clamp all four bounds to `[1,50]`, then sequentially
`minInt := min(minInt, maxInt)`, `maxInt := max(maxInt, minInt)`, and the same
for the fractional pair. -/
def normalizeDigitsSettings (next : DigitsSettings) : DigitsSettings :=
  let m1 := clampInt next.minIntDigits 1 50
  let m2 := clampInt next.maxIntDigits 1 50
  let f1 := clampInt next.minFracDigits 1 50
  let f2 := clampInt next.maxFracDigits 1 50
  let m1' := min m1 m2
  let m2' := max m2 m1'
  let f1' := min f1 f2
  let f2' := max f2 f1'
  { minIntDigits := .fin (m1' : ℚ), maxIntDigits := .fin (m2' : ℚ),
    enableSign := next.enableSign, enableDecimal := next.enableDecimal,
    minFracDigits := .fin (f1' : ℚ), maxFracDigits := .fin (f2' : ℚ) }

/-- The externally triggerable transitions of the hook: a keydown event and
the exposed actions. -/
inductive Event where
  | key (k : JStr) (meta ctrl alt : Bool) : Event
  | setMode (m : Mode) : Event
  | toggleRunning : Event
  | resetAll : Event
  | setDigitsSettings (next : DigitsSettings) : Event
  | enableAll : Event
  | disableAll : Event
  | setEnabledForItem (item : JStr) (enabled : Bool) : Event

/-- One transition of the trainer. -/
def step (o : Oracle) (e : Event) (s : TrainerState) : TrainerState :=
  match e with
  | .key k meta ctrl alt => onKeyDown o k meta ctrl alt s
  | .setMode m => resetQuestion o m none none none { s with mode := m }
  | .toggleRunning => { s with isRunning := !s.isRunning }
  | .resetAll =>
      resetQuestion o s.mode none none none
        { s with totalAttempts := 0, totalCorrect := 0, totalMiss := 0,
                 totalBackspace := 0, lastTimeMs := none, statsByItem := [] }
  | .setDigitsSettings next =>
      let normalized := normalizeDigitsSettings next
      resetQuestion o .digits none none (some normalized)
        { s with digitsSettings := normalized }
  | .enableAll =>
      if s.mode = .digits then s
      else if s.mode = .single then
        resetQuestion o .single (some (initEnabledMap SINGLE_SYMBOLS)) none none
          { s with enabledSingle := initEnabledMap SINGLE_SYMBOLS }
      else
        resetQuestion o .combo none (some (initEnabledMap COMBOS)) none
          { s with enabledCombo := initEnabledMap COMBOS }
  | .disableAll =>
      if s.mode = .digits then s
      else if s.mode = .single then
        resetQuestion o .single (some (allFalseMap (basePool s.mode))) none none
          { s with enabledSingle := allFalseMap (basePool s.mode) }
      else
        resetQuestion o .combo none (some (allFalseMap (basePool s.mode))) none
          { s with enabledCombo := allFalseMap (basePool s.mode) }
  | .setEnabledForItem item enabled =>
      if s.mode = .digits then s
      else if s.mode = .single then
        resetQuestion o .single (some (setKey s.enabledSingle item enabled)) none none
          { s with enabledSingle := setKey s.enabledSingle item enabled }
      else
        resetQuestion o .combo none (some (setKey s.enabledCombo item enabled)) none
          { s with enabledCombo := setKey s.enabledCombo item enabled }

/-- The initial `digitsSettings` of the hook. -/
def initDigitsSettings : DigitsSettings :=
  { minIntDigits := .fin 3, maxIntDigits := .fin 7,
    enableSign := false, enableDecimal := false,
    minFracDigits := .fin 1, maxFracDigits := .fin 4 }

/-- The hook's initial state: single mode, running, all catalog items
enabled, a target drawn from `SINGLE_SYMBOLS`, empty buffers and zeroed
counters. -/
def initState (e0 : ℕ) (now : ℚ) : TrainerState :=
  { mode := .single, isRunning := true,
    enabledSingle := initEnabledMap SINGLE_SYMBOLS,
    enabledCombo := initEnabledMap COMBOS,
    digitsSettings := initDigitsSettings,
    target := pickRandom SINGLE_SYMBOLS e0,
    typed := [], progress := [],
    totalAttempts := 0, totalCorrect := 0, totalMiss := 0, totalBackspace := 0,
    lastTimeMs := none, statsByItem := [], shownAt := now }

/-- Whether an event can actually be delivered to the hook in state `s`: the
digits-settings form is rendered by `App` only in digits mode, so its
`onChange` can only fire there; every other event is always available. -/
def eventOk (e : Event) (s : TrainerState) : Prop :=
  match e with
  | .setDigitsSettings _ => s.mode = .digits
  | _ => True

/-- The states the trainer can actually reach: an initial state followed by
any sequence of deliverable transitions. -/
inductive Reachable : TrainerState → Prop where
  | init (e0 : ℕ) (now : ℚ) : Reachable (initState e0 now)
  | next (s : TrainerState) (o : Oracle) (e : Event) :
      Reachable s → eventOk e s → Reachable (step o e s)

/-- The state invariant maintained by every reachable trainer state: the
progress buffer is a matched prefix of the target and is never the whole
(non-empty) target; an empty effective pool in single/combo mode forces the
empty-target marker; in digits mode the typed buffer mirrors the progress
buffer; the attempt counter splits into correct and miss; and every recorded
per-item statistic has been attempted and never counts more successes than
attempts. -/
def TrainerInv (s : TrainerState) : Prop :=
  jsStartsWith s.target s.progress = true ∧
  (s.progress = [] ∨ s.progress.length < s.target.length) ∧
  (s.mode ≠ Mode.digits → computePool s = [] → s.target = []) ∧
  (s.mode = Mode.digits → s.typed = s.progress) ∧
  s.totalAttempts = s.totalCorrect + s.totalMiss ∧
  (∀ p ∈ s.statsByItem, p.2.correct ≤ p.2.attempts ∧ 1 ≤ p.2.attempts)

/-- A fixed all-zero randomness oracle used to instantiate theorems on
concrete states. -/
def oracle0 : Oracle :=
  { pickE := 0,
    digits := { intLenE := 0, decB := false, signB := false, plusB := false,
                fracLenE := 0, intDigitE := fun _ => 0, fracDigitE := fun _ => 0 },
    now := 5 }

/-- A concrete running combo-mode state with target `"=>"`, used to
instantiate theorems. -/
def comboState : TrainerState :=
  { mode := .combo, isRunning := true,
    enabledSingle := initEnabledMap SINGLE_SYMBOLS,
    enabledCombo := initEnabledMap COMBOS,
    digitsSettings := initDigitsSettings,
    target := str "=>", typed := [], progress := [],
    totalAttempts := 0, totalCorrect := 0, totalMiss := 0, totalBackspace := 0,
    lastTimeMs := none, statsByItem := [], shownAt := 0 }

/-- A concrete running single-mode state with target `"("`. -/
def singleState : TrainerState :=
  { comboState with mode := .single, target := str "(" }

/-- A concrete running digits-mode state with target `"042"` and one matched
character. -/
def digitsState : TrainerState :=
  { comboState with mode := .digits, target := str "042",
                    typed := str "0", progress := str "0" }

/-- Concrete in-range settings (the hook's defaults, written with integer
casts) used to instantiate the generator theorem. -/
def settingsW : DigitsSettings :=
  { minIntDigits := .fin ((3 : ℤ) : ℚ), maxIntDigits := .fin ((7 : ℤ) : ℚ),
    enableSign := false, enableDecimal := false,
    minFracDigits := .fin ((1 : ℤ) : ℚ), maxFracDigits := .fin ((4 : ℤ) : ℚ) }

/-- A concrete statistics map: the spec's scenario item `"("` with 4
attempts, 1 success and 500 ms accumulated, plus an item with no success. -/
def statsW : List (JStr × Stat) :=
  [(str "(", { attempts := 4, correct := 1, totalMs := 500 }),
   (str ")", { attempts := 1, correct := 0, totalMs := 0 })]

/-- The initial state with all-zero entropy and clock, used as a concrete
reachable state. -/
def reach0 : TrainerState := initState 0 0

/-- A concrete reachable combo-mode state (mode switched to combo right after
start); its target is `"=>"`. -/
def reachCombo : TrainerState := step oracle0 (.setMode .combo) reach0

/-- `reachCombo` after typing `'='`: progress `"="` on target `"=>"`. -/
def reachComboEq : TrainerState := step oracle0 (.key (str "=") false false false) reachCombo

theorem jsStartsWith_nil (t : JStr) : jsStartsWith t [] = true := by
  cases t <;> rfl

theorem jsStartsWith_iff (t p : JStr) :
    jsStartsWith t p = true ↔ ∃ r, p ++ r = t := by
  induction t generalizing p with
  | nil =>
    cases p with
    | nil => simp [jsStartsWith]
    | cons d p => simp [jsStartsWith]
  | cons c t ih =>
    cases p with
    | nil => simp [jsStartsWith]
    | cons d p =>
      simp only [jsStartsWith, Bool.and_eq_true, beq_iff_eq, ih, List.cons_append,
        List.cons.injEq]
      constructor
      · rintro ⟨rfl, r, rfl⟩
        exact ⟨r, rfl, rfl⟩
      · rintro ⟨r, rfl, rfl⟩
        exact ⟨rfl, r, rfl⟩

theorem jsStartsWith_self (t : JStr) : jsStartsWith t t = true :=
  (jsStartsWith_iff t t).2 ⟨[], List.append_nil t⟩

theorem jsStartsWith_length_le {t p : JStr} (h : jsStartsWith t p = true) :
    p.length ≤ t.length := by
  obtain ⟨r, rfl⟩ := (jsStartsWith_iff t p).1 h
  simp

theorem jsStartsWith_length_lt {t p : JStr} (h : jsStartsWith t p = true)
    (hne : p ≠ t) : p.length < t.length := by
  obtain ⟨r, rfl⟩ := (jsStartsWith_iff t p).1 h
  cases r with
  | nil => exact absurd (List.append_nil p).symm hne
  | cons a r => simp

theorem jsStartsWith_dropLast {t p : JStr} (h : jsStartsWith t p = true) :
    jsStartsWith t p.dropLast = true := by
  obtain ⟨r, rfl⟩ := (jsStartsWith_iff t p).1 h
  rcases List.eq_nil_or_concat p with rfl | ⟨q, a, rfl⟩
  · exact jsStartsWith_nil _
  · refine (jsStartsWith_iff _ _).2 ⟨[a] ++ r, ?_⟩
    simp

theorem jsStartsWith_snoc {t p : JStr} {c : Char} (h : jsStartsWith t p = true)
    (hc : t[p.length]? = some c) :
    jsStartsWith t (p ++ [c]) = true := by
  obtain ⟨r, rfl⟩ := (jsStartsWith_iff t p).1 h
  rcases r with _ | ⟨b, r⟩
  · simp at hc
  · have hb : (p ++ b :: r)[p.length]? = some b := by
      rw [List.getElem?_append_right (Nat.le_refl _)]
      simp
    rw [hb] at hc
    obtain rfl := Option.some.inj hc
    exact (jsStartsWith_iff _ _).2 ⟨r, by simp⟩

theorem jsCharAt_eq_some {t : JStr} {i : Nat} {c : Char} (h : t[i]? = some c) :
    jsCharAt t i = [c] := by
  unfold jsCharAt
  rw [h]

theorem jsCharAt_lt {t : JStr} {i : Nat} (h : i < t.length) :
    ∃ c, t[i]? = some c ∧ jsCharAt t i = [c] := by
  have hc : t[i]? = some t[i] := List.getElem?_eq_getElem h
  exact ⟨_, hc, jsCharAt_eq_some hc⟩

theorem jsCharAt_ge {t : JStr} {i : Nat} (h : t.length ≤ i) : jsCharAt t i = [] := by
  unfold jsCharAt
  rw [List.getElem?_eq_none h]

theorem pickRandom_mem {list : List JStr} (e : ℕ) (h : list ≠ []) :
    pickRandom list e ∈ list := by
  have hlen : 0 < list.length := List.length_pos.2 h
  have hlt : e % list.length < list.length := Nat.mod_lt _ hlen
  unfold pickRandom
  rw [List.getD_eq_getElem?_getD, List.getElem?_eq_getElem hlt]
  exact List.getElem_mem hlt

theorem randomIntE_bounds (e : ℕ) (mn mx : ℤ) :
    min mn mx ≤ randomIntE e mn mx ∧ randomIntE e mn mx ≤ max mn mx := by
  show min mn mx ≤ min mn mx + (e : ℤ) % (max mn mx - min mn mx + 1) ∧
    min mn mx + (e : ℤ) % (max mn mx - min mn mx + 1) ≤ max mn mx
  have hab : min mn mx ≤ max mn mx := min_le_max
  have hpos : 0 < max mn mx - min mn mx + 1 := by omega
  have h1 : 0 ≤ (e : ℤ) % (max mn mx - min mn mx + 1) :=
    Int.emod_nonneg _ (by omega)
  have h2 : (e : ℤ) % (max mn mx - min mn mx + 1) < max mn mx - min mn mx + 1 :=
    Int.emod_lt_of_pos _ hpos
  omega

theorem ratTrunc_intCast (z : ℤ) : ratTrunc (z : ℚ) = z := by
  unfold ratTrunc
  split
  · exact Int.floor_intCast z
  · exact Int.ceil_intCast z

theorem clampInt_bounds (n : JSNum) {mn mx : ℤ} (h : mn ≤ mx) :
    mn ≤ clampInt n mn mx ∧ clampInt n mn mx ≤ mx := by
  cases n with
  | fin q =>
    unfold clampInt
    constructor
    · exact le_min h (le_max_left _ _)
    · exact min_le_left _ _
  | nan => exact ⟨le_refl _, h⟩
  | posInf => exact ⟨le_refl _, h⟩
  | negInf => exact ⟨le_refl _, h⟩

theorem clampInt_intCast {z : ℤ} {mn mx : ℤ} (h1 : mn ≤ z) (h2 : z ≤ mx) :
    clampInt (.fin (z : ℚ)) mn mx = z := by
  show min mx (max mn (ratTrunc (z : ℚ))) = z
  rw [ratTrunc_intCast, max_eq_right h1, min_eq_right h2]

theorem clampInt_nonFinite {n : JSNum} (h : n.isFiniteNum = false) (mn mx : ℤ) :
    clampInt n mn mx = mn := by
  cases n with
  | fin q => simp [JSNum.isFiniteNum] at h
  | nan => rfl
  | posInf => rfl
  | negInf => rfl

theorem digitChar_isDigit {d : ℕ} (h : d ≤ 9) : (Nat.digitChar d).isDigit = true := by
  interval_cases d <;> decide

theorem digitChar_ne_zero {d : ℕ} (h1 : 1 ≤ d) (h2 : d ≤ 9) : Nat.digitChar d ≠ '0' := by
  interval_cases d <;> decide

theorem buildDigitsString_length (ent : ℕ → ℕ) (len : ℤ) (fnz : Bool) :
    (buildDigitsString ent len fnz).length = (max 1 len).toNat := by
  unfold buildDigitsString
  simp

theorem buildDigitsString_length_of_bounds (ent : ℕ → ℕ) {len lo hi : ℤ} (fnz : Bool)
    (h1 : 1 ≤ lo) (h2 : lo ≤ len) (h3 : len ≤ hi) :
    lo ≤ ((buildDigitsString ent len fnz).length : ℤ) ∧
      ((buildDigitsString ent len fnz).length : ℤ) ≤ hi := by
  rw [buildDigitsString_length]
  have : (max 1 len).toNat = len.toNat := by omega
  rw [this]
  omega

theorem buildDigitsString_all_digits (ent : ℕ → ℕ) (len : ℤ) (fnz : Bool) :
    ∀ c ∈ buildDigitsString ent len fnz, c.isDigit = true := by
  unfold buildDigitsString
  intro c hc
  simp only [List.mem_map, List.mem_range] at hc
  obtain ⟨i, _, rfl⟩ := hc
  apply digitChar_isDigit
  have hb := randomIntE_bounds (ent i) (if i == 0 && fnz then 1 else 0) 9
  rcases hb with ⟨h1, h2⟩
  have hmin : (0 : ℤ) ≤ min (if i == 0 && fnz then (1:ℤ) else 0) 9 := by
    split <;> simp
  have hmax : max (if i == 0 && fnz then (1:ℤ) else 0) 9 = 9 := by
    split <;> simp
  omega

theorem buildDigitsString_head_ne_zero (ent : ℕ → ℕ) (len : ℤ) :
    ∀ c, (buildDigitsString ent len true).headI = c → c ≠ '0' := by
  intro c hc
  obtain ⟨m, hm⟩ : ∃ m, (max 1 len).toNat = m + 1 := ⟨(max 1 len).toNat - 1, by omega⟩
  have hc' : Nat.digitChar (randomIntE (ent 0) 1 9).toNat = c := by
    have : buildDigitsString ent len true =
        (List.range (m + 1)).map fun i =>
          Nat.digitChar (randomIntE (ent i) (if i == 0 && true then 1 else 0) 9).toNat := by
      show ((List.range (max 1 len).toNat).map _) = _
      rw [hm]
    rw [this, List.range_succ_eq_map] at hc
    simpa using hc
  subst hc'
  have hb := randomIntE_bounds (ent 0) 1 9
  have hmin : min (1:ℤ) 9 = 1 := by norm_num
  have hmax : max (1:ℤ) 9 = 9 := by norm_num
  rw [hmin, hmax] at hb
  exact digitChar_ne_zero (by omega) (by omega)

theorem mem_setStat {l : List (JStr × Stat)} {item : JStr} {v : Stat} :
    ∀ q ∈ setStat l item v, q = (item, v) ∨ q ∈ l := by
  induction l with
  | nil =>
    intro q hq
    simp [setStat] at hq
    exact Or.inl hq
  | cons p rest ih =>
    intro q hq
    unfold setStat at hq
    split at hq
    · rcases List.mem_cons.1 hq with h | h
      · exact Or.inl h
      · exact Or.inr (List.mem_cons_of_mem _ h)
    · rcases List.mem_cons.1 hq with h | h
      · exact Or.inr (h ▸ List.mem_cons_self _ _)
      · rcases ih q h with h' | h'
        · exact Or.inl h'
        · exact Or.inr (List.mem_cons_of_mem _ h')

theorem findStat_setStat (l : List (JStr × Stat)) (item : JStr) (v : Stat) :
    findStat (setStat l item v) item = some v := by
  induction l with
  | nil => simp [setStat, findStat]
  | cons p rest ih =>
    unfold setStat
    split
    · simp [findStat]
    · unfold findStat
      split
      · rename_i hp
        exact absurd hp (by assumption)
      · exact ih

theorem findStat_mem {l : List (JStr × Stat)} {item : JStr} {v : Stat}
    (h : findStat l item = some v) : (item, v) ∈ l := by
  induction l with
  | nil => simp [findStat] at h
  | cons p rest ih =>
    unfold findStat at h
    split at h
    · rename_i hp
      obtain rfl := Option.some.inj h
      exact hp ▸ List.mem_cons_self _ _
    · exact List.mem_cons_of_mem _ (ih h)

theorem findStat_bumpStat (l : List (JStr × Stat)) (item : JStr) (c : Bool)
    (e : Option ℚ) :
    findStat (bumpStat l item c e) item =
      some { attempts := ((findStat l item).getD ⟨0, 0, 0⟩).attempts + 1,
             correct := ((findStat l item).getD ⟨0, 0, 0⟩).correct + (if c then 1 else 0),
             totalMs := ((findStat l item).getD ⟨0, 0, 0⟩).totalMs +
               (match c, e with
                | true, some ms => ms
                | _, _ => 0) } := by
  unfold bumpStat
  exact findStat_setStat ..

theorem bumpStat_stats {l : List (JStr × Stat)} (item : JStr) (c : Bool) (e : Option ℚ)
    (h : ∀ p ∈ l, p.2.correct ≤ p.2.attempts ∧ 1 ≤ p.2.attempts) :
    ∀ p ∈ bumpStat l item c e, p.2.correct ≤ p.2.attempts ∧ 1 ≤ p.2.attempts := by
  intro p hp
  unfold bumpStat at hp
  rcases mem_setStat p hp with rfl | hmem
  · dsimp only
    rcases hcur : findStat l item with _ | v
    · cases c <;> simp
    · have hv := h _ (findStat_mem hcur)
      dsimp only [Option.getD_some]
      dsimp only at hv
      cases c <;> simp <;> omega
  · exact h _ hmem

theorem normalizeKey_singleton {k : JStr} (h : k.length = 1) : normalizeKey k = k := by
  unfold normalizeKey
  have h1 : k ≠ str "Enter" := by
    intro hk
    rw [hk] at h
    simp [str] at h
  have h2 : k ≠ str "Tab" := by
    intro hk
    rw [hk] at h
    simp [str] at h
  have h3 : k ≠ str "Escape" := by
    intro hk
    rw [hk] at h
    simp [str] at h
  have h4 : k ≠ str "Dead" := by
    intro hk
    rw [hk] at h
    simp [str] at h
  simp [h1, h2, h3, h4]

theorem normalizeKey_backspace : normalizeKey (str "Backspace") = str "Backspace" := by
  decide

theorem singleton_length_ne {k : JStr} (h : k.length = 1) : k ≠ [] := by
  intro hk
  rw [hk] at h
  simp at h

theorem resetQuestion_eq (o : Oracle) (m : Mode) (ovES ovEC : Option EnabledMap)
    (ovDS : Option DigitsSettings) (s : TrainerState) :
    resetQuestion o m ovES ovEC ovDS s =
      { s with
        target :=
          if m = .digits then generateDigitsTarget o.digits (ovDS.getD s.digitsSettings)
          else
            (if (filterPool (if m = .single then SINGLE_SYMBOLS else COMBOS)
                  (if m = .single then ovES.getD s.enabledSingle
                   else ovEC.getD s.enabledCombo)).length = 0 then []
             else pickRandom
               (filterPool (if m = .single then SINGLE_SYMBOLS else COMBOS)
                 (if m = .single then ovES.getD s.enabledSingle
                  else ovEC.getD s.enabledCombo)) o.pickE),
        typed := [], progress := [], shownAt := o.now } := by
  unfold resetQuestion
  split
  · rename_i h
    simp [h]
  · rename_i h
    simp [h]

theorem computePool_update (s : TrainerState) (t ty pr : JStr) (sa : ℚ) :
    computePool { s with target := t, typed := ty, progress := pr, shownAt := sa } =
      computePool s := by
  unfold computePool
  rfl

theorem resetQuestion_inv (o : Oracle) (m : Mode) (ovES ovEC : Option EnabledMap)
    (ovDS : Option DigitsSettings) (s : TrainerState)
    (hMode : s.mode = m)
    (hES : ovES.getD s.enabledSingle = s.enabledSingle)
    (hEC : ovEC.getD s.enabledCombo = s.enabledCombo)
    (hCnt : s.totalAttempts = s.totalCorrect + s.totalMiss)
    (hStats : ∀ p ∈ s.statsByItem, p.2.correct ≤ p.2.attempts ∧ 1 ≤ p.2.attempts) :
    TrainerInv (resetQuestion o m ovES ovEC ovDS s) := by
  subst hMode
  rw [resetQuestion_eq]
  refine ⟨jsStartsWith_nil _, Or.inl rfl, ?_, fun _ => rfl, hCnt, hStats⟩
  intro hmode hpool
  rw [computePool_update] at hpool
  unfold computePool at hpool
  rcases hsm : s.mode with _ | _ | _
  · rw [hsm] at hpool
    dsimp only at hpool
    simp [hsm, hES, hpool]
  · rw [hsm] at hpool
    dsimp only at hpool
    simp [hsm, hEC, hpool]
  · exact absurd hsm (by simpa using hmode)

theorem nextQuestion_inv (o : Oracle) (s : TrainerState)
    (hCnt : s.totalAttempts = s.totalCorrect + s.totalMiss)
    (hStats : ∀ p ∈ s.statsByItem, p.2.correct ≤ p.2.attempts ∧ 1 ≤ p.2.attempts)
    (hPool : s.mode ≠ .digits → computePool s ≠ []) :
    TrainerInv (nextQuestion o s) := by
  unfold nextQuestion
  split
  · rename_i h
    exact resetQuestion_inv o .digits none none none s h rfl rfl hCnt hStats
  · rename_i h
    dsimp only
    split
    · rename_i hlen
      exact absurd (List.length_eq_zero.1 hlen) (hPool h)
    · refine ⟨jsStartsWith_nil _, Or.inl rfl, ?_, fun hd => rfl, hCnt, hStats⟩
      intro hmode hpool
      rw [computePool_update] at hpool
      exact absurd hpool (hPool h)

theorem onKeySymbols_ext (o : Oracle) (key : JStr) (s : TrainerState)
    (h1 : jsStartsWith s.target (s.progress ++ key) = true)
    (h2 : s.progress ++ key ≠ s.target) :
    onKeySymbols o key s = { s with typed := s.typed ++ key, progress := s.progress ++ key } := by
  unfold onKeySymbols
  rw [if_pos h1, if_neg h2]

theorem onKeySymbols_complete (o : Oracle) (key : JStr) (s : TrainerState)
    (h1 : jsStartsWith s.target (s.progress ++ key) = true)
    (h2 : s.progress ++ key = s.target) :
    onKeySymbols o key s =
      nextQuestion o
        { s with typed := s.typed ++ key, progress := s.progress ++ key,
                 lastTimeMs := some (o.now - s.shownAt),
                 totalAttempts := s.totalAttempts + 1,
                 totalCorrect := s.totalCorrect + 1,
                 statsByItem := bumpStat s.statsByItem s.target true (some (o.now - s.shownAt)) } := by
  unfold onKeySymbols
  rw [if_pos h1, if_pos h2]

theorem onKeySymbols_miss (o : Oracle) (key : JStr) (s : TrainerState)
    (h1 : ¬ jsStartsWith s.target (s.progress ++ key) = true) :
    onKeySymbols o key s =
      { s with typed := s.typed ++ key,
               totalAttempts := s.totalAttempts + 1,
               totalMiss := s.totalMiss + 1,
               statsByItem := bumpStat s.statsByItem s.target false none,
               progress := [] } := by
  unfold onKeySymbols
  rw [if_neg h1]

theorem onKeyDigits_ext (o : Oracle) (key : JStr) (s : TrainerState)
    (h1 : key = jsCharAt s.target s.progress.length)
    (h2 : s.progress ++ key ≠ s.target) :
    onKeyDigits o key s =
      { s with typed := s.progress ++ key, progress := s.progress ++ key } := by
  unfold onKeyDigits
  rw [if_pos h1, if_neg h2]

theorem onKeyDigits_complete (o : Oracle) (key : JStr) (s : TrainerState)
    (h1 : key = jsCharAt s.target s.progress.length)
    (h2 : s.progress ++ key = s.target) :
    onKeyDigits o key s =
      nextQuestion o
        { s with typed := s.progress ++ key, progress := s.progress ++ key,
                 lastTimeMs := some (o.now - s.shownAt),
                 totalAttempts := s.totalAttempts + 1,
                 totalCorrect := s.totalCorrect + 1,
                 statsByItem := bumpStat s.statsByItem s.target true (some (o.now - s.shownAt)) } := by
  unfold onKeyDigits
  rw [if_pos h1, if_pos h2]

theorem onKeyDigits_miss (o : Oracle) (key : JStr) (s : TrainerState)
    (h1 : ¬ key = jsCharAt s.target s.progress.length) :
    onKeyDigits o key s =
      { s with totalAttempts := s.totalAttempts + 1,
               totalMiss := s.totalMiss + 1,
               statsByItem := bumpStat s.statsByItem s.target false none } := by
  unfold onKeyDigits
  rw [if_neg h1]

theorem onKeyDown_backspace (o : Oracle) (s : TrainerState)
    (hRun : s.isRunning = true) (hTgt : s.target ≠ [])
    (hMode : s.mode = .digits) :
    onKeyDown o (str "Backspace") false false false s =
      { s with totalBackspace := s.totalBackspace + 1,
               typed := jsDropLast s.typed,
               progress := jsDropLast s.progress } := by
  unfold onKeyDown
  rw [hRun, if_neg (by simp), if_neg hTgt, if_neg (by simp), if_pos hMode, if_pos rfl]

theorem onKeyDown_digits_key (o : Oracle) (k : JStr) (s : TrainerState)
    (hRun : s.isRunning = true) (hTgt : s.target ≠ [])
    (hMode : s.mode = .digits) (hk : k.length = 1) :
    onKeyDown o k false false false s = onKeyDigits o k s := by
  unfold onKeyDown
  have hkB : k ≠ str "Backspace" := by
    intro hkk
    rw [hkk] at hk
    simp [str] at hk
  rw [hRun, if_neg (by simp), if_neg hTgt, if_neg (by simp), if_pos hMode, if_neg hkB,
    normalizeKey_singleton hk, if_neg (singleton_length_ne hk), if_neg (by rw [hk]; simp)]

theorem onKeyDown_symbols_key (o : Oracle) (k : JStr) (s : TrainerState)
    (hRun : s.isRunning = true) (hTgt : s.target ≠ [])
    (hMode : s.mode ≠ .digits) (hk : k.length = 1) :
    onKeyDown o k false false false s = onKeySymbols o k s := by
  unfold onKeyDown
  rw [hRun, if_neg (by simp), if_neg hTgt, if_neg (by simp), if_neg hMode,
    normalizeKey_singleton hk, if_neg (singleton_length_ne hk), if_neg (by rw [hk]; simp)]

theorem onKeyDigits_inv (o : Oracle) (key : JStr) (s : TrainerState)
    (hkey : key.length = 1) (hMode : s.mode = .digits) (h : TrainerInv s) :
    TrainerInv (onKeyDigits o key s) := by
  obtain ⟨hPre, hLen, hPool, hTyped, hCnt, hStats⟩ := h
  by_cases hmatch : key = jsCharAt s.target s.progress.length
  · have hkne := singleton_length_ne hkey
    have hlt : s.progress.length < s.target.length := by
      by_contra hge
      exact hkne (hmatch.trans (jsCharAt_ge (Nat.le_of_not_lt hge)))
    obtain ⟨c, hc, hcA⟩ := jsCharAt_lt hlt
    have hkeyc : key = [c] := hmatch.trans hcA
    have hpre' : jsStartsWith s.target (s.progress ++ key) = true := by
      rw [hkeyc]
      exact jsStartsWith_snoc hPre hc
    by_cases hcomp : s.progress ++ key = s.target
    · rw [onKeyDigits_complete o key s hmatch hcomp]
      apply nextQuestion_inv
      · dsimp only
        omega
      · dsimp only
        exact bumpStat_stats _ _ _ hStats
      · intro hmd
        exact absurd hMode hmd
    · rw [onKeyDigits_ext o key s hmatch hcomp]
      refine ⟨hpre', Or.inr (jsStartsWith_length_lt hpre' hcomp), ?_, fun _ => rfl, hCnt, hStats⟩
      intro hmd
      exact absurd hMode hmd
  · rw [onKeyDigits_miss o key s hmatch]
    refine ⟨hPre, hLen, ?_, hTyped, by dsimp only; omega,
      by dsimp only; exact bumpStat_stats _ _ _ hStats⟩
    intro hmd
    exact absurd hMode hmd

theorem onKeySymbols_inv (o : Oracle) (key : JStr) (s : TrainerState)
    (hMode : s.mode ≠ .digits) (hTgt : s.target ≠ []) (h : TrainerInv s) :
    TrainerInv (onKeySymbols o key s) := by
  obtain ⟨hPre, hLen, hPool, hTyped, hCnt, hStats⟩ := h
  by_cases hpre : jsStartsWith s.target (s.progress ++ key) = true
  · by_cases hcomp : s.progress ++ key = s.target
    · rw [onKeySymbols_complete o key s hpre hcomp]
      apply nextQuestion_inv
      · dsimp only
        omega
      · dsimp only
        exact bumpStat_stats _ _ _ hStats
      · intro _ hp
        have hp' : computePool s = [] := hp
        exact hTgt (hPool hMode hp')
    · rw [onKeySymbols_ext o key s hpre hcomp]
      refine ⟨hpre, Or.inr (jsStartsWith_length_lt hpre hcomp), ?_, ?_, hCnt, hStats⟩
      · intro hmd hp
        have hp' : computePool s = [] := hp
        exact hPool hMode hp'
      · intro hmd
        exact absurd hmd hMode
  · rw [onKeySymbols_miss o key s hpre]
    refine ⟨jsStartsWith_nil _, Or.inl rfl, ?_, ?_, by dsimp only; omega,
      by dsimp only; exact bumpStat_stats _ _ _ hStats⟩
    · intro hmd hp
      have hp' : computePool s = [] := hp
      exact hPool hMode hp'
    · intro hmd
      exact absurd hmd hMode

theorem onKeyDown_inv (o : Oracle) (k : JStr) (meta ctrl alt : Bool) (s : TrainerState)
    (h : TrainerInv s) : TrainerInv (onKeyDown o k meta ctrl alt s) := by
  unfold onKeyDown
  split
  · exact h
  split
  · exact h
  split
  · exact h
  split
  · rename_i hMode
    split
    · obtain ⟨hPre, hLen, hPool, hTyped, hCnt, hStats⟩ := h
      refine ⟨jsStartsWith_dropLast hPre, ?_, ?_, ?_, hCnt, hStats⟩
      · rcases hLen with h0 | hlt
        · rw [h0]
          exact Or.inl rfl
        · refine Or.inr ?_
          have : (jsDropLast s.progress).length = s.progress.length - 1 := by
            unfold jsDropLast
            simp
          dsimp only
          omega
      · intro hmd
        exact absurd hMode hmd
      · intro _
        exact congrArg jsDropLast (hTyped hMode)
    · dsimp only
      split
      · exact h
      split
      · exact h
      rename_i hne hlen
      exact onKeyDigits_inv o _ s (by omega) hMode h
  · rename_i hTgt hMods hMode
    dsimp only
    split
    · exact h
    split
    · exact h
    rename_i hne hlen
    exact onKeySymbols_inv o _ s hMode hTgt h

theorem initState_inv (e0 : ℕ) (now : ℚ) : TrainerInv (initState e0 now) := by
  refine ⟨jsStartsWith_nil _, Or.inl rfl, ?_, ?_, rfl, ?_⟩
  · intro _ hp
    have hne : filterPool SINGLE_SYMBOLS (initEnabledMap SINGLE_SYMBOLS) ≠ [] := by decide
    exact absurd hp hne
  · intro hmd
    simp [initState] at hmd
  · intro p hp
    simp [initState] at hp

theorem step_inv (o : Oracle) (e : Event) (s : TrainerState)
    (hOk : eventOk e s) (h : TrainerInv s) : TrainerInv (step o e s) := by
  obtain ⟨hPre, hLen, hPool, hTyped, hCnt, hStats⟩ := h
  cases e with
  | key k meta ctrl alt =>
    exact onKeyDown_inv o k meta ctrl alt s ⟨hPre, hLen, hPool, hTyped, hCnt, hStats⟩
  | setMode m =>
    exact resetQuestion_inv o m none none none _ rfl rfl rfl hCnt hStats
  | toggleRunning =>
    exact ⟨hPre, hLen, fun hmd hp => hPool hmd hp, fun hmd => hTyped hmd, hCnt, hStats⟩
  | resetAll =>
    refine resetQuestion_inv o s.mode none none none _ rfl rfl rfl rfl ?_
    intro p hp
    simp at hp
  | setDigitsSettings next =>
    have hMode : s.mode = .digits := hOk
    exact resetQuestion_inv o .digits none none _ _ hMode rfl rfl hCnt hStats
  | enableAll =>
    dsimp only [step]
    split
    · exact ⟨hPre, hLen, hPool, hTyped, hCnt, hStats⟩
    split
    · rename_i hm
      exact resetQuestion_inv o .single _ none none _ hm rfl rfl hCnt hStats
    · rename_i hmd hms
      have hm : s.mode = .combo := by
        cases hsm : s.mode
        · exact absurd hsm hms
        · rfl
        · exact absurd hsm hmd
      exact resetQuestion_inv o .combo none _ none _ hm rfl rfl hCnt hStats
  | disableAll =>
    dsimp only [step]
    split
    · exact ⟨hPre, hLen, hPool, hTyped, hCnt, hStats⟩
    split
    · rename_i hm
      exact resetQuestion_inv o .single _ none none _ hm rfl rfl hCnt hStats
    · rename_i hmd hms
      have hm : s.mode = .combo := by
        cases hsm : s.mode
        · exact absurd hsm hms
        · rfl
        · exact absurd hsm hmd
      exact resetQuestion_inv o .combo none _ none _ hm rfl rfl hCnt hStats
  | setEnabledForItem item enabled =>
    dsimp only [step]
    split
    · exact ⟨hPre, hLen, hPool, hTyped, hCnt, hStats⟩
    split
    · rename_i hm
      exact resetQuestion_inv o .single _ none none _ hm rfl rfl hCnt hStats
    · rename_i hmd hms
      have hm : s.mode = .combo := by
        cases hsm : s.mode
        · exact absurd hsm hms
        · rfl
        · exact absurd hsm hmd
      exact resetQuestion_inv o .combo none _ none _ hm rfl rfl hCnt hStats

theorem reachable_inv {s : TrainerState} (h : Reachable s) : TrainerInv s := by
  induction h with
  | init e0 now => exact initState_inv e0 now
  | next s o e _ hOk ih => exact step_inv o e s hOk ih

theorem nextQuestion_draw (o : Oracle) (s : TrainerState)
    (hMode : s.mode ≠ .digits) (hP : computePool s ≠ []) :
    nextQuestion o s =
      { s with target := pickRandom (computePool s) o.pickE,
               typed := [], progress := [], shownAt := o.now } := by
  unfold nextQuestion
  rw [if_neg hMode]
  dsimp only
  rw [if_neg fun h => hP (List.length_eq_zero.1 h)]

/-- C2: in single/combo mode, while running with a non-empty target, a
printable single-character key that does not extend the matched prefix
increments the attempt and miss totals, records a failed attempt for the
target with no duration added, clears the progress buffer, and appends the
key to the typed buffer (which is not reset). -/
theorem trainer_symbols_mismatch (o : Oracle) (k : JStr) (s : TrainerState)
    (hMode : s.mode = Mode.single ∨ s.mode = Mode.combo)
    (hRun : s.isRunning = true) (hTgt : s.target ≠ [])
    (hk : k.length = 1)
    (hmiss : ¬ jsStartsWith s.target (s.progress ++ k) = true) :
    step o (.key k false false false) s =
      { s with typed := s.typed ++ k,
               progress := [],
               totalAttempts := s.totalAttempts + 1,
               totalMiss := s.totalMiss + 1,
               statsByItem := bumpStat s.statsByItem s.target false none } ∧
    findStat (step o (.key k false false false) s).statsByItem s.target =
      some { attempts := ((findStat s.statsByItem s.target).getD ⟨0, 0, 0⟩).attempts + 1,
             correct := ((findStat s.statsByItem s.target).getD ⟨0, 0, 0⟩).correct,
             totalMs := ((findStat s.statsByItem s.target).getD ⟨0, 0, 0⟩).totalMs } := by
  have hM : s.mode ≠ Mode.digits := by
    rcases hMode with h | h <;> simp [h]
  have hstep : step o (.key k false false false) s = onKeySymbols o k s :=
    onKeyDown_symbols_key o k s hRun hTgt hM hk
  rw [hstep, onKeySymbols_miss o k s hmiss]
  refine ⟨rfl, ?_⟩
  dsimp only
  rw [findStat_bumpStat]
  simp

/-- Witness for C2: the spec's scenario (target `"("`, key `'x'`). -/
theorem trainer_symbols_mismatch_witness :
    singleState.isRunning = true ∧ singleState.target ≠ [] ∧
    (¬ jsStartsWith singleState.target (singleState.progress ++ str "x") = true) ∧
    step oracle0 (.key (str "x") false false false) singleState =
      { singleState with
          typed := singleState.typed ++ str "x",
          progress := [],
          totalAttempts := singleState.totalAttempts + 1,
          totalMiss := singleState.totalMiss + 1,
          statsByItem := bumpStat singleState.statsByItem singleState.target false none } :=
  ⟨rfl, by decide, by decide,
    (trainer_symbols_mismatch oracle0 (str "x") singleState (Or.inl rfl) rfl
      (by decide) (by decide) (by decide)).1⟩

/-- C3: in digits mode, while running with a non-empty target, a printable
single-character key different from the expected character increments the
attempt and miss totals and records a failed per-item attempt, while the
progress and typed buffers (and every other field) are left unchanged. -/
theorem trainer_digits_mismatch_frame (o : Oracle) (k : JStr) (s : TrainerState)
    (hMode : s.mode = Mode.digits)
    (hRun : s.isRunning = true) (hTgt : s.target ≠ [])
    (hk : k.length = 1)
    (hmiss : k ≠ jsCharAt s.target s.progress.length) :
    step o (.key k false false false) s =
      { s with totalAttempts := s.totalAttempts + 1,
               totalMiss := s.totalMiss + 1,
               statsByItem := bumpStat s.statsByItem s.target false none } ∧
    (step o (.key k false false false) s).progress = s.progress ∧
    (step o (.key k false false false) s).typed = s.typed ∧
    findStat (step o (.key k false false false) s).statsByItem s.target =
      some { attempts := ((findStat s.statsByItem s.target).getD ⟨0, 0, 0⟩).attempts + 1,
             correct := ((findStat s.statsByItem s.target).getD ⟨0, 0, 0⟩).correct,
             totalMs := ((findStat s.statsByItem s.target).getD ⟨0, 0, 0⟩).totalMs } := by
  have hstep : step o (.key k false false false) s = onKeyDigits o k s :=
    onKeyDown_digits_key o k s hRun hTgt hMode hk
  rw [hstep, onKeyDigits_miss o k s hmiss]
  refine ⟨rfl, rfl, rfl, ?_⟩
  dsimp only
  rw [findStat_bumpStat]
  simp

/-- Witness for C3: the spec's scenario (target `"042"`, progress `"0"`,
key `'9'`). -/
theorem trainer_digits_mismatch_frame_witness :
    digitsState.mode = Mode.digits ∧ digitsState.target ≠ [] ∧
    str "9" ≠ jsCharAt digitsState.target digitsState.progress.length ∧
    (step oracle0 (.key (str "9") false false false) digitsState).progress =
      digitsState.progress ∧
    (step oracle0 (.key (str "9") false false false) digitsState).typed =
      digitsState.typed :=
  ⟨rfl, by decide, by decide,
    (trainer_digits_mismatch_frame oracle0 (str "9") digitsState rfl rfl
      (by decide) (by decide) (by decide)).2.1,
    (trainer_digits_mismatch_frame oracle0 (str "9") digitsState rfl rfl
      (by decide) (by decide) (by decide)).2.2.1⟩

/-- C6: in digits mode, while running with a non-empty target, Backspace
increments the backspace counter and drops the last character of both the
typed and progress buffers (a no-op on empty buffers); in the other two modes
a Backspace keydown leaves the state completely unchanged. -/
theorem trainer_backspace (o : Oracle) (s : TrainerState) :
    (s.mode = Mode.digits → s.isRunning = true → s.target ≠ [] →
      step o (.key (str "Backspace") false false false) s =
        { s with totalBackspace := s.totalBackspace + 1,
                 typed := jsDropLast s.typed,
                 progress := jsDropLast s.progress } ∧
      (s.typed = [] → (step o (.key (str "Backspace") false false false) s).typed = []) ∧
      (s.progress = [] →
        (step o (.key (str "Backspace") false false false) s).progress = [])) ∧
    (s.mode ≠ Mode.digits → step o (.key (str "Backspace") false false false) s = s) := by
  constructor
  · intro hMode hRun hTgt
    have hstep : step o (.key (str "Backspace") false false false) s =
        { s with totalBackspace := s.totalBackspace + 1,
                 typed := jsDropLast s.typed,
                 progress := jsDropLast s.progress } :=
      onKeyDown_backspace o s hRun hTgt hMode
    refine ⟨hstep, ?_, ?_⟩
    · intro h0
      rw [hstep]
      dsimp only
      rw [h0]
      rfl
    · intro h0
      rw [hstep]
      dsimp only
      rw [h0]
      rfl
  · intro hMode
    show onKeyDown o (str "Backspace") false false false s = s
    unfold onKeyDown
    split
    · rfl
    split
    · rfl
    split
    · rfl
    dsimp only
    rw [normalizeKey_backspace, if_neg (by decide), if_pos (by decide)]

/-- Witness for C6: the spec's scenario (digits target `"042"`, buffers
`"0"`) and a combo-mode state where Backspace is inert. -/
theorem trainer_backspace_witness :
    digitsState.mode = Mode.digits ∧
    step oracle0 (.key (str "Backspace") false false false) digitsState =
      { digitsState with
          totalBackspace := digitsState.totalBackspace + 1,
          typed := jsDropLast digitsState.typed,
          progress := jsDropLast digitsState.progress } ∧
    comboState.mode ≠ Mode.digits ∧
    step oracle0 (.key (str "Backspace") false false false) comboState = comboState :=
  ⟨rfl,
    ((trainer_backspace oracle0 digitsState).1 rfl rfl (by decide)).1,
    by decide,
    (trainer_backspace oracle0 comboState).2 (by decide)⟩

/-- C1: in single/combo mode, while running with a non-empty target, a
printable single-character key that extends the matched prefix either (not
yet complete) just appends to the typed and progress buffers, or (completing
the target) increments the attempt and correct totals, records the elapsed
time since the target was shown, credits the target's per-item statistic with
a success and that duration, and draws a new target from the pool with both
buffers cleared and the shown-time refreshed. -/
theorem trainer_symbols_match_and_complete (o : Oracle) (k : JStr) (s : TrainerState)
    (hReach : Reachable s)
    (hMode : s.mode = Mode.single ∨ s.mode = Mode.combo)
    (hRun : s.isRunning = true) (hTgt : s.target ≠ [])
    (hk : k.length = 1)
    (hpre : jsStartsWith s.target (s.progress ++ k) = true) :
    (s.progress ++ k ≠ s.target →
      step o (.key k false false false) s =
        { s with typed := s.typed ++ k, progress := s.progress ++ k }) ∧
    (s.progress ++ k = s.target →
      (step o (.key k false false false) s).totalAttempts = s.totalAttempts + 1 ∧
      (step o (.key k false false false) s).totalCorrect = s.totalCorrect + 1 ∧
      (step o (.key k false false false) s).totalMiss = s.totalMiss ∧
      (step o (.key k false false false) s).lastTimeMs = some (o.now - s.shownAt) ∧
      findStat (step o (.key k false false false) s).statsByItem s.target =
        some { attempts := ((findStat s.statsByItem s.target).getD ⟨0, 0, 0⟩).attempts + 1,
               correct := ((findStat s.statsByItem s.target).getD ⟨0, 0, 0⟩).correct + 1,
               totalMs := ((findStat s.statsByItem s.target).getD ⟨0, 0, 0⟩).totalMs +
                 (o.now - s.shownAt) } ∧
      (step o (.key k false false false) s).typed = [] ∧
      (step o (.key k false false false) s).progress = [] ∧
      (step o (.key k false false false) s).shownAt = o.now ∧
      (step o (.key k false false false) s).target = pickRandom (computePool s) o.pickE ∧
      (step o (.key k false false false) s).target ∈ computePool s) := by
  have hM : s.mode ≠ Mode.digits := by
    rcases hMode with h | h <;> simp [h]
  have hstep : step o (.key k false false false) s = onKeySymbols o k s :=
    onKeyDown_symbols_key o k s hRun hTgt hM hk
  have hPne : computePool s ≠ [] := by
    intro hp
    exact hTgt ((reachable_inv hReach).2.2.1 hM hp)
  constructor
  · intro hcomp
    rw [hstep, onKeySymbols_ext o k s hpre hcomp]
  · intro hcomp
    rw [hstep, onKeySymbols_complete o k s hpre hcomp]
    rw [nextQuestion_draw o
      { s with typed := s.typed ++ k, progress := s.progress ++ k,
               lastTimeMs := some (o.now - s.shownAt),
               totalAttempts := s.totalAttempts + 1,
               totalCorrect := s.totalCorrect + 1,
               statsByItem := bumpStat s.statsByItem s.target true (some (o.now - s.shownAt)) }
      hM hPne]
    refine ⟨rfl, rfl, rfl, rfl, ?_, rfl, rfl, rfl, rfl, ?_⟩
    · dsimp only
      rw [findStat_bumpStat]
      rfl
    · exact pickRandom_mem o.pickE hPne

/-- Witness for C1: the spec's scenario — combo target `"=>"` with progress
`"="`, key `'>'` completes the attempt. -/
theorem trainer_symbols_match_and_complete_witness :
    jsStartsWith reachComboEq.target (reachComboEq.progress ++ str ">") = true ∧
    reachComboEq.progress ++ str ">" = reachComboEq.target ∧
    (step oracle0 (.key (str ">") false false false) reachComboEq).totalCorrect =
      reachComboEq.totalCorrect + 1 ∧
    (step oracle0 (.key (str ">") false false false) reachComboEq).typed = [] ∧
    (step oracle0 (.key (str ">") false false false) reachComboEq).progress = [] ∧
    (step oracle0 (.key (str ">") false false false) reachComboEq).target ∈
      computePool reachComboEq := by
  have h0 : Reachable reach0 := Reachable.init 0 0
  have h1 : Reachable reachCombo := Reachable.next _ oracle0 _ h0 trivial
  have h2 : Reachable reachComboEq := Reachable.next _ oracle0 _ h1 trivial
  have h := (trainer_symbols_match_and_complete oracle0 (str ">") reachComboEq h2
    (Or.inr (by decide)) (by decide) (by decide) (by decide) (by decide)).2 (by decide)
  exact ⟨by decide, by decide, h.2.1, h.2.2.2.2.2.1, h.2.2.2.2.2.2.1,
    h.2.2.2.2.2.2.2.2.2⟩

theorem resetQuestion_counts (o : Oracle) (m : Mode) (ovES ovEC : Option EnabledMap)
    (ovDS : Option DigitsSettings) (s : TrainerState) :
    (resetQuestion o m ovES ovEC ovDS s).totalAttempts = s.totalAttempts ∧
    (resetQuestion o m ovES ovEC ovDS s).totalCorrect = s.totalCorrect ∧
    (resetQuestion o m ovES ovEC ovDS s).totalMiss = s.totalMiss := by
  rw [resetQuestion_eq]
  exact ⟨rfl, rfl, rfl⟩

theorem nextQuestion_counts (o : Oracle) (s : TrainerState) :
    (nextQuestion o s).totalAttempts = s.totalAttempts ∧
    (nextQuestion o s).totalCorrect = s.totalCorrect ∧
    (nextQuestion o s).totalMiss = s.totalMiss := by
  unfold nextQuestion
  split
  · exact resetQuestion_counts o .digits none none none s
  · dsimp only
    split
    · exact ⟨rfl, rfl, rfl⟩
    · exact ⟨rfl, rfl, rfl⟩

theorem nextQuestion_mode (o : Oracle) (s : TrainerState) :
    (nextQuestion o s).mode = s.mode := by
  unfold nextQuestion
  split
  · rw [resetQuestion_eq]
  · dsimp only
    split
    · rfl
    · rfl

theorem nextQuestion_typedProg (o : Oracle) (s : TrainerState)
    (h : s.typed = s.progress) :
    (nextQuestion o s).typed = (nextQuestion o s).progress := by
  unfold nextQuestion
  split
  · rw [resetQuestion_eq]
  · dsimp only
    split
    · exact h
    · rfl

theorem onKeyDigits_counts (o : Oracle) (key : JStr) (s : TrainerState) :
    ((onKeyDigits o key s).totalAttempts = s.totalAttempts ∧
     (onKeyDigits o key s).totalCorrect = s.totalCorrect ∧
     (onKeyDigits o key s).totalMiss = s.totalMiss) ∨
    ((onKeyDigits o key s).totalAttempts = s.totalAttempts + 1 ∧
     (((onKeyDigits o key s).totalCorrect = s.totalCorrect + 1 ∧
       (onKeyDigits o key s).totalMiss = s.totalMiss) ∨
      ((onKeyDigits o key s).totalMiss = s.totalMiss + 1 ∧
       (onKeyDigits o key s).totalCorrect = s.totalCorrect))) := by
  by_cases h1 : key = jsCharAt s.target s.progress.length
  · by_cases h2 : s.progress ++ key = s.target
    · rw [onKeyDigits_complete o key s h1 h2]
      right
      exact ⟨(nextQuestion_counts o _).1,
        Or.inl ⟨(nextQuestion_counts o _).2.1, (nextQuestion_counts o _).2.2⟩⟩
    · rw [onKeyDigits_ext o key s h1 h2]
      left
      exact ⟨rfl, rfl, rfl⟩
  · rw [onKeyDigits_miss o key s h1]
    right
    exact ⟨rfl, Or.inr ⟨rfl, rfl⟩⟩

theorem onKeySymbols_counts (o : Oracle) (key : JStr) (s : TrainerState) :
    ((onKeySymbols o key s).totalAttempts = s.totalAttempts ∧
     (onKeySymbols o key s).totalCorrect = s.totalCorrect ∧
     (onKeySymbols o key s).totalMiss = s.totalMiss) ∨
    ((onKeySymbols o key s).totalAttempts = s.totalAttempts + 1 ∧
     (((onKeySymbols o key s).totalCorrect = s.totalCorrect + 1 ∧
       (onKeySymbols o key s).totalMiss = s.totalMiss) ∨
      ((onKeySymbols o key s).totalMiss = s.totalMiss + 1 ∧
       (onKeySymbols o key s).totalCorrect = s.totalCorrect))) := by
  by_cases h1 : jsStartsWith s.target (s.progress ++ key) = true
  · by_cases h2 : s.progress ++ key = s.target
    · rw [onKeySymbols_complete o key s h1 h2]
      right
      exact ⟨(nextQuestion_counts o _).1,
        Or.inl ⟨(nextQuestion_counts o _).2.1, (nextQuestion_counts o _).2.2⟩⟩
    · rw [onKeySymbols_ext o key s h1 h2]
      left
      exact ⟨rfl, rfl, rfl⟩
  · rw [onKeySymbols_miss o key s h1]
    right
    exact ⟨rfl, Or.inr ⟨rfl, rfl⟩⟩

theorem onKeyDown_counts (o : Oracle) (k : JStr) (b1 b2 b3 : Bool) (s : TrainerState) :
    ((onKeyDown o k b1 b2 b3 s).totalAttempts = s.totalAttempts ∧
     (onKeyDown o k b1 b2 b3 s).totalCorrect = s.totalCorrect ∧
     (onKeyDown o k b1 b2 b3 s).totalMiss = s.totalMiss) ∨
    ((onKeyDown o k b1 b2 b3 s).totalAttempts = s.totalAttempts + 1 ∧
     (((onKeyDown o k b1 b2 b3 s).totalCorrect = s.totalCorrect + 1 ∧
       (onKeyDown o k b1 b2 b3 s).totalMiss = s.totalMiss) ∨
      ((onKeyDown o k b1 b2 b3 s).totalMiss = s.totalMiss + 1 ∧
       (onKeyDown o k b1 b2 b3 s).totalCorrect = s.totalCorrect))) := by
  unfold onKeyDown
  split
  · left
    exact ⟨rfl, rfl, rfl⟩
  split
  · left
    exact ⟨rfl, rfl, rfl⟩
  split
  · left
    exact ⟨rfl, rfl, rfl⟩
  split
  · split
    · left
      exact ⟨rfl, rfl, rfl⟩
    · dsimp only
      split
      · left
        exact ⟨rfl, rfl, rfl⟩
      split
      · left
        exact ⟨rfl, rfl, rfl⟩
      · exact onKeyDigits_counts o _ s
  · dsimp only
    split
    · left
      exact ⟨rfl, rfl, rfl⟩
    split
    · left
      exact ⟨rfl, rfl, rfl⟩
    · exact onKeySymbols_counts o _ s

theorem onKeyDigits_typedProg (o : Oracle) (key : JStr) (s : TrainerState)
    (h : s.mode = Mode.digits → s.typed = s.progress) :
    (onKeyDigits o key s).mode = Mode.digits →
      (onKeyDigits o key s).typed = (onKeyDigits o key s).progress := by
  by_cases h1 : key = jsCharAt s.target s.progress.length
  · by_cases h2 : s.progress ++ key = s.target
    · rw [onKeyDigits_complete o key s h1 h2]
      intro _
      exact nextQuestion_typedProg o _ rfl
    · rw [onKeyDigits_ext o key s h1 h2]
      intro _
      rfl
  · rw [onKeyDigits_miss o key s h1]
    exact h
  
theorem onKeySymbols_typedProg (o : Oracle) (key : JStr) (s : TrainerState)
    (hMode : s.mode ≠ Mode.digits) :
    (onKeySymbols o key s).mode = Mode.digits →
      (onKeySymbols o key s).typed = (onKeySymbols o key s).progress := by
  by_cases h1 : jsStartsWith s.target (s.progress ++ key) = true
  · by_cases h2 : s.progress ++ key = s.target
    · rw [onKeySymbols_complete o key s h1 h2]
      intro hmd
      rw [nextQuestion_mode] at hmd
      exact absurd hmd hMode
    · rw [onKeySymbols_ext o key s h1 h2]
      intro hmd
      exact absurd hmd hMode
  · rw [onKeySymbols_miss o key s h1]
    intro hmd
    exact absurd hmd hMode

theorem onKeyDown_typedProg (o : Oracle) (k : JStr) (b1 b2 b3 : Bool) (s : TrainerState)
    (h : s.mode = Mode.digits → s.typed = s.progress) :
    (onKeyDown o k b1 b2 b3 s).mode = Mode.digits →
      (onKeyDown o k b1 b2 b3 s).typed = (onKeyDown o k b1 b2 b3 s).progress := by
  unfold onKeyDown
  split
  · exact h
  split
  · exact h
  split
  · exact h
  split
  · rename_i hMode
    split
    · intro _
      dsimp only
      rw [h hMode]
    · dsimp only
      split
      · exact h
      split
      · exact h
      · exact onKeyDigits_typedProg o _ s h
  · rename_i hT hB hMode
    dsimp only
    split
    · exact h
    split
    · exact h
    · exact onKeySymbols_typedProg o _ s hMode

theorem step_typedProg (o : Oracle) (e : Event) (s : TrainerState)
    (h : s.mode = Mode.digits → s.typed = s.progress) :
    (step o e s).mode = Mode.digits → (step o e s).typed = (step o e s).progress := by
  cases e with
  | key k b1 b2 b3 => exact onKeyDown_typedProg o k b1 b2 b3 s h
  | setMode m =>
    dsimp only [step]
    rw [resetQuestion_eq]
    intro _
    rfl
  | toggleRunning => exact h
  | resetAll =>
    dsimp only [step]
    rw [resetQuestion_eq]
    intro _
    rfl
  | setDigitsSettings next =>
    dsimp only [step]
    rw [resetQuestion_eq]
    intro _
    rfl
  | enableAll =>
    dsimp only [step]
    split
    · exact h
    split
    · rw [resetQuestion_eq]
      intro _
      rfl
    · rw [resetQuestion_eq]
      intro _
      rfl
  | disableAll =>
    dsimp only [step]
    split
    · exact h
    split
    · rw [resetQuestion_eq]
      intro _
      rfl
    · rw [resetQuestion_eq]
      intro _
      rfl
  | setEnabledForItem item enabled =>
    dsimp only [step]
    split
    · exact h
    split
    · rw [resetQuestion_eq]
      intro _
      rfl
    · rw [resetQuestion_eq]
      intro _
      rfl

/-- C4: in every reachable state the progress buffer is a matched prefix of
the current target — in single/combo mode it is even empty or a proper
prefix — and the prefix property is preserved by every deliverable
transition. -/
theorem trainer_prefix_invariant :
    (∀ s : TrainerState, Reachable s →
      jsStartsWith s.target s.progress = true ∧
      ((s.mode = Mode.single ∨ s.mode = Mode.combo) →
        s.progress = [] ∨ s.progress.length < s.target.length)) ∧
    (∀ (o : Oracle) (e : Event) (s : TrainerState), Reachable s → eventOk e s →
      jsStartsWith (step o e s).target (step o e s).progress = true) := by
  constructor
  · intro s h
    have hI := reachable_inv h
    exact ⟨hI.1, fun _ => hI.2.1⟩
  · intro o e s h hOk
    exact (reachable_inv (Reachable.next s o e h hOk)).1

/-- Witness for C4: the initial state and a state right after a mode
change. -/
theorem trainer_prefix_invariant_witness :
    jsStartsWith (initState 0 0).target (initState 0 0).progress = true ∧
    ((initState 0 0).mode = Mode.single ∨ (initState 0 0).mode = Mode.combo) ∧
    jsStartsWith (step oracle0 (.setMode .combo) (initState 0 0)).target
      (step oracle0 (.setMode .combo) (initState 0 0)).progress = true :=
  ⟨(trainer_prefix_invariant.1 _ (Reachable.init 0 0)).1,
   Or.inl rfl,
   trainer_prefix_invariant.2 oracle0 _ _ (Reachable.init 0 0) trivial⟩

/-- C9: in every reachable state the attempt total splits exactly into
correct plus miss and no per-item statistic counts more successes than
attempts; every keystroke either leaves the three totals unchanged or
increments the attempt total together with exactly one of correct or miss;
and a full reset zeroes all three totals. -/
theorem trainer_counter_consistency :
    (∀ s : TrainerState, Reachable s →
      s.totalAttempts = s.totalCorrect + s.totalMiss ∧
      ∀ p ∈ s.statsByItem, p.2.correct ≤ p.2.attempts) ∧
    (∀ (o : Oracle) (k : JStr) (b1 b2 b3 : Bool) (s : TrainerState),
      ((step o (.key k b1 b2 b3) s).totalAttempts = s.totalAttempts ∧
       (step o (.key k b1 b2 b3) s).totalCorrect = s.totalCorrect ∧
       (step o (.key k b1 b2 b3) s).totalMiss = s.totalMiss) ∨
      ((step o (.key k b1 b2 b3) s).totalAttempts = s.totalAttempts + 1 ∧
       (((step o (.key k b1 b2 b3) s).totalCorrect = s.totalCorrect + 1 ∧
         (step o (.key k b1 b2 b3) s).totalMiss = s.totalMiss) ∨
        ((step o (.key k b1 b2 b3) s).totalMiss = s.totalMiss + 1 ∧
         (step o (.key k b1 b2 b3) s).totalCorrect = s.totalCorrect)))) ∧
    (∀ (o : Oracle) (s : TrainerState),
      (step o .resetAll s).totalAttempts = 0 ∧
      (step o .resetAll s).totalCorrect = 0 ∧
      (step o .resetAll s).totalMiss = 0) := by
  refine ⟨?_, ?_, ?_⟩
  · intro s h
    have hI := reachable_inv h
    exact ⟨hI.2.2.2.2.1, fun p hp => (hI.2.2.2.2.2 p hp).1⟩
  · intro o k b1 b2 b3 s
    exact onKeyDown_counts o k b1 b2 b3 s
  · intro o s
    exact resetQuestion_counts o s.mode none none none _

/-- Witness for C9: the totals of the initial state, of a concrete
mismatching keystroke, and of a full reset. -/
theorem trainer_counter_consistency_witness :
    (initState 0 0).totalAttempts = (initState 0 0).totalCorrect + (initState 0 0).totalMiss ∧
    (((step oracle0 (.key (str "x") false false false) singleState).totalAttempts =
        singleState.totalAttempts ∧
      (step oracle0 (.key (str "x") false false false) singleState).totalCorrect =
        singleState.totalCorrect ∧
      (step oracle0 (.key (str "x") false false false) singleState).totalMiss =
        singleState.totalMiss) ∨
     ((step oracle0 (.key (str "x") false false false) singleState).totalAttempts =
        singleState.totalAttempts + 1 ∧
      (((step oracle0 (.key (str "x") false false false) singleState).totalCorrect =
          singleState.totalCorrect + 1 ∧
        (step oracle0 (.key (str "x") false false false) singleState).totalMiss =
          singleState.totalMiss) ∨
       ((step oracle0 (.key (str "x") false false false) singleState).totalMiss =
          singleState.totalMiss + 1 ∧
        (step oracle0 (.key (str "x") false false false) singleState).totalCorrect =
          singleState.totalCorrect)))) ∧
    (step oracle0 .resetAll digitsState).totalAttempts = 0 :=
  ⟨(trainer_counter_consistency.1 _ (Reachable.init 0 0)).1,
   trainer_counter_consistency.2.1 oracle0 (str "x") false false false singleState,
   (trainer_counter_consistency.2.2 oracle0 digitsState).1⟩

/-- C10: in digits mode the typed buffer always equals the progress buffer —
it holds in every reachable state and is preserved as such by every
transition (matching keys set both buffers to the same string, mismatching
keys change neither, Backspace shortens both, and every target change clears
both). -/
theorem trainer_digits_typed_eq_progress :
    (∀ s : TrainerState, Reachable s → s.mode = Mode.digits → s.typed = s.progress) ∧
    (∀ (o : Oracle) (e : Event) (s : TrainerState),
      (s.mode = Mode.digits → s.typed = s.progress) →
      ((step o e s).mode = Mode.digits → (step o e s).typed = (step o e s).progress)) := by
  constructor
  · intro s h
    exact (reachable_inv h).2.2.2.1
  · intro o e s h
    exact step_typedProg o e s h

/-- Witness for C10: a reachable digits-mode state, and preservation through
one concrete matching keystroke. -/
theorem trainer_digits_typed_eq_progress_witness :
    (step oracle0 (.setMode .digits) (initState 0 0)).typed =
      (step oracle0 (.setMode .digits) (initState 0 0)).progress ∧
    (step oracle0 (.key (str "4") false false false) digitsState).typed =
      (step oracle0 (.key (str "4") false false false) digitsState).progress :=
  ⟨trainer_digits_typed_eq_progress.1 _
     (Reachable.next _ oracle0 _ (Reachable.init 0 0) trivial) (by decide),
   trainer_digits_typed_eq_progress.2 oracle0 _ digitsState (fun _ => rfl) (by decide)⟩

/-- C7: `setDigitsSettingsAndReset` stores the normalized settings: all four
digit-count bounds are integers in `[1,50]` with `min ≤ max` in each pair
(enforced by the mutual min/max adjustment), the two flags are kept, and a
non-finite input bound falls back to the minimum bound `1`. -/
theorem digitsSettings_normalized (next : DigitsSettings) :
    (∃ a b c d : ℤ,
      normalizeDigitsSettings next =
        { minIntDigits := .fin (a : ℚ), maxIntDigits := .fin (b : ℚ),
          enableSign := next.enableSign, enableDecimal := next.enableDecimal,
          minFracDigits := .fin (c : ℚ), maxFracDigits := .fin (d : ℚ) } ∧
      1 ≤ a ∧ a ≤ b ∧ b ≤ 50 ∧ 1 ≤ c ∧ c ≤ d ∧ d ≤ 50 ∧
      (next.minIntDigits.isFiniteNum = false → a = 1) ∧
      (next.maxIntDigits.isFiniteNum = false → b = 1) ∧
      (next.minFracDigits.isFiniteNum = false → c = 1) ∧
      (next.maxFracDigits.isFiniteNum = false → d = 1)) ∧
    (∀ (o : Oracle) (s : TrainerState),
      (step o (.setDigitsSettings next) s).digitsSettings =
        normalizeDigitsSettings next) := by
  constructor
  · have hm1 := clampInt_bounds next.minIntDigits (show (1 : ℤ) ≤ 50 by norm_num)
    have hm2 := clampInt_bounds next.maxIntDigits (show (1 : ℤ) ≤ 50 by norm_num)
    have hf1 := clampInt_bounds next.minFracDigits (show (1 : ℤ) ≤ 50 by norm_num)
    have hf2 := clampInt_bounds next.maxFracDigits (show (1 : ℤ) ≤ 50 by norm_num)
    refine ⟨min (clampInt next.minIntDigits 1 50) (clampInt next.maxIntDigits 1 50),
      max (clampInt next.maxIntDigits 1 50)
        (min (clampInt next.minIntDigits 1 50) (clampInt next.maxIntDigits 1 50)),
      min (clampInt next.minFracDigits 1 50) (clampInt next.maxFracDigits 1 50),
      max (clampInt next.maxFracDigits 1 50)
        (min (clampInt next.minFracDigits 1 50) (clampInt next.maxFracDigits 1 50)),
      rfl, ?_, ?_, ?_, ?_, ?_, ?_, ?_, ?_, ?_, ?_⟩
    · omega
    · omega
    · omega
    · omega
    · omega
    · omega
    · intro hnf
      rw [clampInt_nonFinite hnf] at *
      omega
    · intro hnf
      rw [clampInt_nonFinite hnf] at *
      omega
    · intro hnf
      rw [clampInt_nonFinite hnf] at *
      omega
    · intro hnf
      rw [clampInt_nonFinite hnf] at *
      omega
  · intro o s
    show (resetQuestion o .digits none none _ _).digitsSettings = _
    rw [resetQuestion_eq]

/-- Witness for C7: a concrete edit with a NaN minimum and an out-of-range
maximum is stored in normalized form. -/
theorem digitsSettings_normalized_witness :
    (step oracle0 (.setDigitsSettings
        { minIntDigits := .nan, maxIntDigits := .fin 60, enableSign := true,
          enableDecimal := false, minFracDigits := .fin 2, maxFracDigits := .fin 5 })
        digitsState).digitsSettings =
      normalizeDigitsSettings
        { minIntDigits := .nan, maxIntDigits := .fin 60, enableSign := true,
          enableDecimal := false, minFracDigits := .fin 2, maxFracDigits := .fin 5 } :=
  (digitsSettings_normalized _).2 oracle0 digitsState

theorem generateDigitsTarget_eq (r : DigitsRand) (settings : DigitsSettings) :
    generateDigitsTarget r settings =
      (if settings.enableSign && r.signB then (if r.plusB then str "+" else str "-") else []) ++
      (if settings.enableDecimal && r.decB then
        buildDigitsString r.intDigitE
            (randomIntE r.intLenE (clampInt settings.minIntDigits 1 50)
              (clampInt settings.maxIntDigits 1 50)) false ++
          str "." ++
          buildDigitsString r.fracDigitE
            (randomIntE r.fracLenE (clampInt settings.minFracDigits 1 50)
              (clampInt settings.maxFracDigits 1 50)) false
       else
        buildDigitsString r.intDigitE
          (randomIntE r.intLenE (clampInt settings.minIntDigits 1 50)
            (clampInt settings.maxIntDigits 1 50)) true) := by
  unfold generateDigitsTarget
  dsimp only
  rcases hD : settings.enableDecimal && r.decB
  · simp [hD]
  · simp [hD]

/-- C5: for in-range integral settings, every generated numeric literal
decomposes as an optional sign, an integer digit part whose length lies in
the configured `[minInt, maxInt]` range, and an optional fractional part:
the sign occurs only with the sign option and is then `'+'` or `'-'`; all
digit characters are decimal digits; without a decimal point the first digit
is never `'0'`; and a fractional part occurs only with the decimal option
and its length lies in the configured `[minFrac, maxFrac]` range. -/
theorem generateDigitsTarget_shape (r : DigitsRand) (settings : DigitsSettings)
    (mi ma mf xf : ℤ)
    (hmi : settings.minIntDigits = .fin (mi : ℚ))
    (hma : settings.maxIntDigits = .fin (ma : ℚ))
    (hmf : settings.minFracDigits = .fin (mf : ℚ))
    (hxf : settings.maxFracDigits = .fin (xf : ℚ))
    (h1 : 1 ≤ mi) (h2 : mi ≤ ma) (h3 : ma ≤ 50)
    (h4 : 1 ≤ mf) (h5 : mf ≤ xf) (h6 : xf ≤ 50) :
    ∃ (sgn ip : JStr) (fr : Option JStr),
      generateDigitsTarget r settings =
        sgn ++ ip ++ (match fr with | none => [] | some f => str "." ++ f) ∧
      (sgn = [] ∨ (settings.enableSign = true ∧ (sgn = str "+" ∨ sgn = str "-"))) ∧
      (∀ c ∈ ip, c.isDigit = true) ∧
      mi ≤ (ip.length : ℤ) ∧ (ip.length : ℤ) ≤ ma ∧
      (fr = none → ip.headI ≠ '0') ∧
      (∀ f, fr = some f → settings.enableDecimal = true ∧
        (∀ c ∈ f, c.isDigit = true) ∧ mf ≤ (f.length : ℤ) ∧ (f.length : ℤ) ≤ xf) := by
  have hcm1 : clampInt settings.minIntDigits 1 50 = mi := by
    rw [hmi]
    exact clampInt_intCast h1 (by omega)
  have hcm2 : clampInt settings.maxIntDigits 1 50 = ma := by
    rw [hma]
    exact clampInt_intCast (by omega) h3
  have hcf1 : clampInt settings.minFracDigits 1 50 = mf := by
    rw [hmf]
    exact clampInt_intCast h4 (by omega)
  have hcf2 : clampInt settings.maxFracDigits 1 50 = xf := by
    rw [hxf]
    exact clampInt_intCast (by omega) h6
  have hIntLen := randomIntE_bounds r.intLenE mi ma
  rw [min_eq_left h2, max_eq_right h2] at hIntLen
  have hFracLen := randomIntE_bounds r.fracLenE mf xf
  rw [min_eq_left h5, max_eq_right h5] at hFracLen
  have hSign : (if settings.enableSign && r.signB then (if r.plusB then str "+" else str "-") else []) = [] ∨
      (settings.enableSign = true ∧
        ((if settings.enableSign && r.signB then (if r.plusB then str "+" else str "-") else []) = str "+" ∨
         (if settings.enableSign && r.signB then (if r.plusB then str "+" else str "-") else []) = str "-")) := by
    rcases hS : settings.enableSign && r.signB
    · left
      simp [hS]
    · have hand := hS
      rw [Bool.and_eq_true] at hand
      right
      refine ⟨hand.1, ?_⟩
      rcases hP : r.plusB
      · right
        simp [hS, hP]
      · left
        simp [hS, hP]
  rw [generateDigitsTarget_eq r settings, hcm1, hcm2, hcf1, hcf2]
  rcases hD : settings.enableDecimal && r.decB
  · rw [if_neg (show ¬ false = true by simp)]
    refine ⟨_, buildDigitsString r.intDigitE (randomIntE r.intLenE mi ma) true, none,
      by simp, hSign, buildDigitsString_all_digits _ _ _, ?_, ?_, ?_, ?_⟩
    · exact (buildDigitsString_length_of_bounds _ true h1 hIntLen.1 hIntLen.2).1
    · exact (buildDigitsString_length_of_bounds _ true h1 hIntLen.1 hIntLen.2).2
    · intro _
      exact buildDigitsString_head_ne_zero _ _ _ rfl
    · intro f hf
      exact absurd hf (by simp)
  · rw [if_pos (show true = true from rfl)]
    refine ⟨_, buildDigitsString r.intDigitE (randomIntE r.intLenE mi ma) false,
      some (buildDigitsString r.fracDigitE (randomIntE r.fracLenE mf xf) false),
      by simp, hSign, buildDigitsString_all_digits _ _ _, ?_, ?_, ?_, ?_⟩
    · exact (buildDigitsString_length_of_bounds _ false h1 hIntLen.1 hIntLen.2).1
    · exact (buildDigitsString_length_of_bounds _ false h1 hIntLen.1 hIntLen.2).2
    · intro hf
      exact absurd hf (by simp)
    · intro f hf
      obtain rfl := Option.some.inj hf
      have hand := hD
      rw [Bool.and_eq_true] at hand
      exact ⟨hand.1, buildDigitsString_all_digits _ _ _,
        (buildDigitsString_length_of_bounds _ false h4 hFracLen.1 hFracLen.2).1,
        (buildDigitsString_length_of_bounds _ false h4 hFracLen.1 hFracLen.2).2⟩

/-- Witness for C5: the generator applied to the default settings and the
all-zero randomness oracle. -/
theorem generateDigitsTarget_shape_witness :
    settingsW.minIntDigits = .fin ((3 : ℤ) : ℚ) ∧
    settingsW.maxIntDigits = .fin ((7 : ℤ) : ℚ) ∧
    (1 : ℤ) ≤ 3 ∧ (3 : ℤ) ≤ 7 ∧
    (∃ (sgn ip : JStr) (fr : Option JStr),
      generateDigitsTarget oracle0.digits settingsW =
        sgn ++ ip ++ (match fr with | none => [] | some f => str "." ++ f) ∧
      (sgn = [] ∨ (settingsW.enableSign = true ∧ (sgn = str "+" ∨ sgn = str "-"))) ∧
      (∀ c ∈ ip, c.isDigit = true) ∧
      (3 : ℤ) ≤ (ip.length : ℤ) ∧ (ip.length : ℤ) ≤ 7 ∧
      (fr = none → ip.headI ≠ '0') ∧
      (∀ f, fr = some f → settingsW.enableDecimal = true ∧
        (∀ c ∈ f, c.isDigit = true) ∧ (1 : ℤ) ≤ (f.length : ℤ) ∧ (f.length : ℤ) ≤ 4)) :=
  ⟨rfl, rfl, by decide, by decide,
    generateDigitsTarget_shape oracle0.digits settingsW 3 7 1 4 rfl rfl rfl rfl
      (by decide) (by decide) (by decide) (by decide) (by decide) (by decide)⟩

theorem rankLe_iff (a b : RankedStat) :
    rankLe a b = true ↔ (a.acc < b.acc ∨ (a.acc = b.acc ∧ b.attempts ≤ a.attempts)) := by
  unfold rankLe
  simp

theorem rankLe_trans (a b c : RankedStat) (hab : rankLe a b = true)
    (hbc : rankLe b c = true) : rankLe a c = true := by
  rw [rankLe_iff] at *
  rcases hab with h1 | ⟨h1, h1'⟩ <;> rcases hbc with h2 | ⟨h2, h2'⟩
  · exact Or.inl (lt_trans h1 h2)
  · exact Or.inl (h2 ▸ h1)
  · exact Or.inl (h1 ▸ h2)
  · exact Or.inr ⟨h1.trans h2, le_trans h2' h1'⟩

theorem rankLe_total (a b : RankedStat) : (rankLe a b || rankLe b a) = true := by
  rw [Bool.or_eq_true, rankLe_iff, rankLe_iff]
  rcases lt_trichotomy a.acc b.acc with h | h | h
  · exact Or.inl (Or.inl h)
  · rcases Nat.le_total b.attempts a.attempts with h' | h'
    · exact Or.inl (Or.inr ⟨h, h'⟩)
    · exact Or.inr (Or.inr ⟨h.symm, h'⟩)
  · exact Or.inr (Or.inl h)

/-- C8: the statistics view — with every recorded item having been attempted
at least once (true of every map the trainer builds), the ranked list is the
first 10 entries of a comparator-sorted permutation of all derived rows
(accuracy ascending, ties by attempts descending); every ranked row derives
from a recorded item with accuracy `correct/attempts × 100` and average
duration `totalMs/correct`, undefined (`none`, never a division) when
`correct = 0`; with at most 10 recorded items the ranked list is exactly a
permutation of all derived rows; the derived accuracy of an unattempted item
is 0; and the overall accuracy is `totalCorrect/totalAttempts × 100`, or 0
with no attempts. -/
theorem trainer_ranking (stats : List (JStr × Stat))
    (hAtt : ∀ p ∈ stats, 1 ≤ p.2.attempts) :
    (∃ l : List RankedStat,
      (stats.map deriveStat).Perm l ∧
      l.Pairwise (fun a b => a.acc < b.acc ∨ (a.acc = b.acc ∧ b.attempts ≤ a.attempts)) ∧
      rankedOf stats = l.take 10) ∧
    (∀ rs ∈ rankedOf stats, ∃ p ∈ stats, rs = deriveStat p ∧
      1 ≤ rs.attempts ∧
      rs.acc = (rs.correct : ℚ) / (rs.attempts : ℚ) * 100 ∧
      (rs.correct = 0 → rs.avg = none) ∧
      (rs.correct ≠ 0 → rs.avg = some (rs.totalMs / (rs.correct : ℚ)))) ∧
    (stats.length ≤ 10 → (rankedOf stats).Perm (stats.map deriveStat)) ∧
    (∀ p : JStr × Stat, p.2.attempts = 0 → (deriveStat p).acc = 0) ∧
    (∀ s : TrainerState,
      (s.totalAttempts = 0 → accuracyOf s = 0) ∧
      (s.totalAttempts ≠ 0 →
        accuracyOf s = (s.totalCorrect : ℚ) / (s.totalAttempts : ℚ) * 100)) := by
  have hsorted := @List.sorted_mergeSort _ rankLe rankLe_trans rankLe_total
    (stats.map deriveStat)
  have hperm := List.mergeSort_perm (stats.map deriveStat) rankLe
  refine ⟨⟨(stats.map deriveStat).mergeSort rankLe, hperm.symm, ?_, rfl⟩, ?_, ?_, ?_, ?_⟩
  · exact hsorted.imp fun h => (rankLe_iff _ _).1 h
  · intro rs hrs
    have hmem : rs ∈ (stats.map deriveStat).mergeSort rankLe :=
      List.take_subset _ _ hrs
    have hmem2 : rs ∈ stats.map deriveStat := hperm.mem_iff.1 hmem
    obtain ⟨p, hp, rfl⟩ := List.mem_map.1 hmem2
    have hp1 : 1 ≤ p.2.attempts := hAtt p hp
    refine ⟨p, hp, rfl, hp1, ?_, ?_, ?_⟩
    · unfold deriveStat
      dsimp only
      rw [if_neg (by omega)]
    · intro h0
      unfold deriveStat at h0 ⊢
      dsimp only at h0 ⊢
      rw [if_pos h0]
    · intro h0
      unfold deriveStat at h0 ⊢
      dsimp only at h0 ⊢
      rw [if_neg h0]
  · intro hlen
    have hlen' : ((stats.map deriveStat).mergeSort rankLe).length ≤ 10 := by
      rw [hperm.length_eq, List.length_map]
      exact hlen
    unfold rankedOf
    rw [List.take_of_length_le hlen']
    exact hperm
  · intro p h0
    unfold deriveStat
    dsimp only
    rw [if_pos h0]
  · intro s
    constructor
    · intro h0
      unfold accuracyOf
      rw [if_pos h0]
    · intro h0
      unfold accuracyOf
      rw [if_neg h0]

/-- Witness for C8: the spec's statistics scenario (item `"("` with 4
attempts, 1 success, 500 ms; an item with no success). -/
theorem trainer_ranking_witness :
    (∀ p ∈ statsW, 1 ≤ p.2.attempts) ∧
    (∃ l : List RankedStat,
      (statsW.map deriveStat).Perm l ∧
      l.Pairwise (fun a b => a.acc < b.acc ∨ (a.acc = b.acc ∧ b.attempts ≤ a.attempts)) ∧
      rankedOf statsW = l.take 10) ∧
    (∀ rs ∈ rankedOf statsW, ∃ p ∈ statsW, rs = deriveStat p ∧
      1 ≤ rs.attempts ∧
      rs.acc = (rs.correct : ℚ) / (rs.attempts : ℚ) * 100 ∧
      (rs.correct = 0 → rs.avg = none) ∧
      (rs.correct ≠ 0 → rs.avg = some (rs.totalMs / (rs.correct : ℚ)))) :=
  ⟨by decide,
   (trainer_ranking statsW (by decide)).1,
   (trainer_ranking statsW (by decide)).2.1⟩
